import Mathlib

/-!
Verification of the transcript-acquisition pipeline of `AI_video.py`
(caption parsers, extractor track selection, source-fallback orchestration,
transcript rendering and truncation), as a shallow embedding in Lean.

Raw subtitle text is represented throughout by its list of lines (the
decomposition Python's `str.splitlines` produces); the parsers in the source
are line-structured, so this representation is faithful.
-/

/-- One caption cue: start time in whole seconds and its text. Mirrors the
`{"start": ..., "text": ...}` dictionaries built by the parsers of
`AI_video.py`. -/
structure CaptionEntry where
  start : Nat
  text : String
deriving Repr, DecidableEq

/-- `_ts2sec` from the source: `h * 3600 + m * 60 + s`. -/
def ts2sec (h m s : Nat) : Nat := h * 3600 + m * 60 + s

/-- Numeric value of a decimal digit character. -/
def digitVal (c : Char) : Nat := c.toNat - 48

/-- The decimal digit character of `n < 10`. -/
def digitChar (n : Nat) : Char := Char.ofNat (48 + n)

/-- Decimal value of a digit run, as Python `int` reads the regex groups. -/
def natOfDigits (ds : List Char) : Nat :=
  ds.foldl (fun acc c => 10 * acc + digitVal c) 0

/-- Python `str.strip()`: remove leading and trailing whitespace. Implemented
over the character list so that it evaluates by kernel reduction. -/
def pyStrip (s : String) : String :=
  String.mk (((s.data.dropWhile Char.isWhitespace).reverse.dropWhile Char.isWhitespace).reverse)

/-- Python `text.replace("\n", " ")` (a single-character pattern, hence a
character map). -/
def replaceNewlines (s : String) : String :=
  String.mk (s.data.map (fun c => if c = '\n' then ' ' else c))

/-- Python `" ".join`. -/
def joinSpace : List String → String
  | [] => ""
  | [s] => s
  | s :: rest => s ++ " " ++ joinSpace rest

/-- Python `"\n".join`. -/
def joinNewline : List String → String
  | [] => ""
  | [s] => s
  | s :: rest => s ++ "\n" ++ joinNewline rest

/-! ## SRT parser (`SRT_PATTERN`, `parse_srt`) -/

/-- Whether a line matches the index-line part `^\d+\s*?\n` of `SRT_PATTERN`:
one or more digits followed only by whitespace. -/
def isIndexLine (s : String) : Bool :=
  !(s.data.takeWhile Char.isDigit).isEmpty &&
    (s.data.dropWhile Char.isDigit).all Char.isWhitespace

/-- The start timestamp of an SRT timing line, per `SRT_PATTERN`'s
`(\d{2}:\d{2}:\d{2},\d{3})\s*-->.*?`: two-digit hours, minutes, seconds, a
comma, three millisecond digits, optional whitespace, then `-->`. As in
`parse_srt`, only `3600*h + 60*m + s` is kept (`split(",")[0]` drops the
milliseconds). `none` when the line does not match. -/
def srtStart (line : String) : Option Nat :=
  match line.data with
  | h1 :: h2 :: c1 :: m1 :: m2 :: c2 :: s1 :: s2 :: c3 :: d1 :: d2 :: d3 :: rest =>
    if h1.isDigit && h2.isDigit && (c1 == ':') && m1.isDigit && m2.isDigit &&
        (c2 == ':') && s1.isDigit && s2.isDigit && (c3 == ',') &&
        d1.isDigit && d2.isDigit && d3.isDigit &&
        List.isPrefixOf ['-', '-', '>'] (rest.dropWhile Char.isWhitespace) then
      some (ts2sec (10 * digitVal h1 + digitVal h2) (10 * digitVal m1 + digitVal m2)
        (10 * digitVal s1 + digitVal s2))
    else none
  | _ => none

/-- The cue body text of `parse_srt`:
`" ".join(line.strip() for line in body.splitlines() if line.strip())`. -/
def srtBody (body : List String) : String :=
  joinSpace ((body.map pyStrip).filter (fun s => s != ""))

/-- A line made of whitespace only (what a run of `\s` can span). -/
def wsOnly (s : String) : Bool := s.data.all Char.isWhitespace

/-- The body/rest split after an SRT timing line, mirroring
`(.+?)\s*?(?:\n\n|\Z)` of `SRT_PATTERN` under DOTALL and lazy matching: the
capture ends at the first blank line that leaves it non-empty, so when the
line right after the timing line is blank, a blank line at the very next
position cannot end the cue and is captured into the body instead. Returns
the body lines and the lines after the consumed terminator. -/
def srtSplit (r : List String) : List String × List String :=
  match r with
  | [] => ([], [])
  | r0 :: t =>
    if r0 = "" then
      match t with
      | [] => ([""], [])
      | t0 :: ts =>
        ("" :: t0 :: ts.takeWhile (fun s => s != ""),
          (ts.dropWhile (fun s => s != "")).drop 1)
    else
      ((r0 :: t).takeWhile (fun s => s != ""),
        ((r0 :: t).dropWhile (fun s => s != "")).drop 1)

/-- `parse_srt`, on the line decomposition of the raw text. `SRT_PATTERN` finds
blocks `index line, timing line, body lines`: the index line is digits (plus
trailing whitespace), `\s*?\n` lets whitespace-only lines stand between it and
the timing line, the body runs to the blank-line terminator or the end of the
input (`srtSplit`), the body is stripped line by line, blank body lines are
dropped, and an entry is kept when the joined body is non-empty. Lines where
no block starts are skipped, and scanning resumes after each block's
terminator. -/
def parseSrtAux : Nat → List String → List CaptionEntry
  | 0, _ => []
  | _, [] => []
  | fuel + 1, l1 :: rest =>
    if isIndexLine l1 then
      match rest.dropWhile wsOnly with
      | [] => []
      | l2 :: rest2 =>
        match srtStart l2 with
        | some t =>
          let txt := srtBody (srtSplit rest2).1
          (if txt != "" then [CaptionEntry.mk t txt] else []) ++
            parseSrtAux fuel (srtSplit rest2).2
        | none => parseSrtAux fuel rest
    else parseSrtAux fuel rest

/-- `parse_srt` proper: the scan consumes at least one line per step, so
`lines.length` steps of fuel always suffice (`parseSrtAux_eq_of_le`). -/
def parse_srt (lines : List String) : List CaptionEntry :=
  parseSrtAux lines.length lines

/-! ## VTT parser (`VTT_TS_RE`, `parse_vtt`) -/

/-- Substring test over character lists (Python `"-->" in line`). -/
def infixOf (needle : List Char) : List Char → Bool
  | [] => needle.isEmpty
  | c :: cs => List.isPrefixOf needle (c :: cs) || infixOf needle cs

/-- Whether a line contains `-->` (the cue-header test of `parse_vtt`). -/
def hasArrow (line : String) : Bool :=
  infixOf ['-', '-', '>'] line.data

/-- The part of a line before the first `-->`: Python `line.split("-->")[0]`. -/
def beforeArrow : List Char → List Char
  | [] => []
  | c :: cs =>
    if List.isPrefixOf ['-', '-', '>'] (c :: cs) then []
    else c :: beforeArrow cs

/-- A match of `VTT_TS_RE` (`(\d{2,}):(\d{2}):(\d{2})\.(\d{3})`) anchored at the
start of the character list: a greedy run of at least two digits, `:`, two
digits, `:`, two digits, `.`, three digits. Returns the hour, minute and second
group values. -/
def vttMatchHere (cs : List Char) : Option (Nat × Nat × Nat) :=
  let hs := cs.takeWhile Char.isDigit
  if hs.length < 2 then none
  else
    match cs.dropWhile Char.isDigit with
    | ':' :: m1 :: m2 :: ':' :: s1 :: s2 :: '.' :: e1 :: e2 :: e3 :: _ =>
      if m1.isDigit && m2.isDigit && s1.isDigit && s2.isDigit &&
          e1.isDigit && e2.isDigit && e3.isDigit then
        some (natOfDigits hs, 10 * digitVal m1 + digitVal m2,
          10 * digitVal s1 + digitVal s2)
      else none
    | _ => none

/-- `VTT_TS_RE.search`: the first position with a match of `vttMatchHere`. -/
def vttSearch : List Char → Option (Nat × Nat × Nat)
  | [] => none
  | c :: cs =>
    match vttMatchHere (c :: cs) with
    | some r => some r
    | none => vttSearch cs

/-- The parsed start time of a VTT cue header:
`VTT_TS_RE.search(line.split("-->")[0].strip())`, then `_ts2sec` on the matched
hour/minute/second groups (milliseconds truncated). -/
def vttStart (line : String) : Option Nat :=
  match vttSearch (pyStrip (String.mk (beforeArrow line.data))).data with
  | some (h, m, s) => some (ts2sec h m s)
  | none => none

/-- `parse_vtt`: a line scan. A line containing `-->` opens a cue; the
following non-blank lines, stripped, form its body; the line after them (blank,
or the end) is skipped; an entry is emitted only when the timestamp parsed and
the body is non-empty (a failed timestamp is logged and skipped, the scan
continuing with later cues). Other lines are skipped. -/
def parseVttAux : Nat → List String → List CaptionEntry
  | 0, _ => []
  | _, [] => []
  | fuel + 1, l :: rest =>
    if hasArrow l then
      let body := (rest.takeWhile (fun s => pyStrip s != "")).map pyStrip
      let rest2 := (rest.dropWhile (fun s => pyStrip s != "")).drop 1
      (match vttStart l, body with
       | some t, _ :: _ => [CaptionEntry.mk t (joinSpace body)]
       | _, _ => []) ++ parseVttAux fuel rest2
    else parseVttAux fuel rest

/-- `parse_vtt` proper: the scan consumes at least one line per step, so
`lines.length` steps of fuel always suffice (`parseVttAux_eq_of_le`). -/
def parse_vtt (lines : List String) : List CaptionEntry :=
  parseVttAux lines.length lines

/-- `parse_captions`: dispatch on the format tag. For an unknown tag the source
returns Python `None` (its return type is `list | None`), embedded here as
`none`; for `srt`/`vtt` it always returns a (possibly empty) entry list. -/
def parse_captions (lines : List String) (ext : String) : Option (List CaptionEntry) :=
  if ext = "srt" then some (parse_srt lines)
  else if ext = "vtt" then some (parse_vtt lines)
  else none

/-! ## Extractor track selection (`_pick` and the calls in `fetch_transcript`) -/

/-- One entry of a subtitle track list of the extractor's catalog, with its
optional `ext` and `url` fields. -/
structure SubEntry where
  ext : Option String
  url : Option String
deriving Repr, DecidableEq

/-- A track catalog: language code to its list of track entries, in dictionary
order. -/
abbrev SubsInfo := List (String × List SubEntry)

/-- The default `pref_formats` of `_pick`. -/
def prefFormats : List String := ["srt", "vtt", "srv3", "ttml"]

/-- `entry.get("ext") in pref_formats and entry.get("url")`: an accepted format
and a present, non-empty (Python truthiness) url. -/
def usable (e : SubEntry) : Bool :=
  match e.ext, e.url with
  | some x, some u => prefFormats.contains x && u != ""
  | _, _ => false

/-- The `(url, ext)` of the first usable entry of one language's track list
(the inner `for entry in subs_info[lang]` loop of `_pick`). -/
def pickEntry : List SubEntry → Option (String × String)
  | [] => none
  | e :: rest =>
    match e.ext, e.url with
    | some x, some u =>
      if prefFormats.contains x && u != "" then some (u, x) else pickEntry rest
    | _, _ => pickEntry rest

/-- `subs_info[lang]` on the association-list model of the catalog dict. -/
def lookupLang (subs : SubsInfo) (lang : String) : Option (List SubEntry) :=
  match subs with
  | [] => none
  | (l, es) :: rest => if l = lang then some es else lookupLang rest lang

/-- The first preferred-language loop of `_pick`: for each `lang` of
`pref_langs` present in the catalog, the first usable entry. -/
def pickPreferred (si : SubsInfo) : List String → Option (String × String)
  | [] => none
  | lang :: rest =>
    match lookupLang si lang with
    | some es =>
      match pickEntry es with
      | some r => some r
      | none => pickPreferred si rest
    | none => pickPreferred si rest

/-- The any-language fallback loop of `_pick`, in catalog order. -/
def pickAny : SubsInfo → Option (String × String)
  | [] => none
  | (_, es) :: rest =>
    match pickEntry es with
    | some r => some r
    | none => pickAny rest

/-- `_pick(subs_info, pref_langs)`: a `None` or empty catalog yields nothing
(`if not subs_info`); then the preferred-language loop; then the any-language
fallback. -/
def pick (subs : Option SubsInfo) (prefLangs : List String) : Option (String × String) :=
  match subs with
  | none => none
  | some si =>
    if si.isEmpty then none
    else
      match pickPreferred si prefLangs with
      | some r => some r
      | none => pickAny si

/-- The `subtitles` and `automatic_captions` catalogs of the `info` dict
returned by `ydl.extract_info` (either may be absent). -/
structure YInfo where
  subtitles : Option SubsInfo
  automatic_captions : Option SubsInfo

/-- The track selection of `fetch_transcript`'s extractor path: `_pick` on the
manual subtitles, and on the automatic captions only when that yielded no
url. -/
def pickTrack (info : YInfo) (langs : List String) : Option (String × String) :=
  match pick info.subtitles langs with
  | some r => some r
  | none => pick info.automatic_captions langs

/-! ## The orchestrator `fetch_transcript` -/

/-- One raw item of `YouTubeTranscriptApi.get_transcript`'s result: its start
(already truncated to whole seconds, as `int(float(it["start"]))` does) and its
text (empty when the `text` field is missing or empty). -/
structure RawItem where
  start : Nat
  text : String
deriving Repr, DecidableEq

/-- Outcome of the direct-captions call `YouTubeTranscriptApi.get_transcript`:
the raw items on success, `unavailable` for `TranscriptsDisabled` /
`NoTranscriptFound`, `err` for any other exception. -/
inductive DirectOutcome
  | ok (data : List RawItem)
  | unavailable
  | err

/-- The comprehension normalizing the direct-captions items: keep items with
non-empty text, replacing newlines in the text by spaces. -/
def processDirect (data : List RawItem) : List CaptionEntry :=
  (data.filter (fun it => it.text != "")).map
    (fun it => CaptionEntry.mk it.start (replaceNewlines it.text))

/-- The extractor-side environment of one `fetch_transcript` run: the outcome
of `ydl.extract_info` (`none` for an exception or a falsy `info`), and the
HTTP download of a subtitle url (`none` for an HTTP error; the body is given
by its lines, the empty body by `[]`). -/
structure ExtractorEnv where
  extractInfo : Option YInfo
  download : String → Option (List String)

/-- The default of `langs = langs or ["ru", "en"]`. -/
def defaultLangs : List String := ["ru", "en"]

/-- The extractor leg of `fetch_transcript` (the code from `extract_info` to
`parse_captions`): every failure — extraction error, no suitable track, HTTP
error, empty body — yields `none`, and a downloaded body is parsed and the
parser's result returned as is. -/
def extractorFetch (env : ExtractorEnv) (langs : List String) :
    Option (List CaptionEntry) :=
  match env.extractInfo with
  | none => none
  | some info =>
    match pickTrack info langs with
    | none => none
    | some (url, ext) =>
      match env.download url with
      | none => none
      | some raw =>
        if raw.isEmpty then none else parse_captions raw ext

/-- `fetch_transcript`, as a function of the two sources' outcomes. Returns
the final result (`none` embeds Python `None`) paired with the number of times
the extractor (`ydl.extract_info`) was invoked: a direct-captions success is
processed and returned with zero extractor invocations, any raised exception
falls through to the extractor leg, run exactly once, with
`langs = langs or ["ru", "en"]` applied first. -/
def fetch_transcript (d : DirectOutcome) (env : ExtractorEnv) (langs0 : List String) :
    Option (List CaptionEntry) × Nat :=
  match d with
  | .ok data => (some (processDirect data), 0)
  | _ => (extractorFetch env (if langs0.isEmpty then defaultLangs else langs0), 1)

/-! ## Transcript rendering and truncation (`handle_message`) -/

/-- Python `f"{n:02d}"`: decimal rendering zero-padded to width two. -/
def fmt02 (n : Nat) : String :=
  if n < 10 then "0" ++ toString n else toString n

/-- One transcript line of `handle_message`:
`f"[{start // 60:02d}:{start % 60:02d}] {text}"`. -/
def transcriptLine (c : CaptionEntry) : String :=
  "[" ++ fmt02 (c.start / 60) ++ ":" ++ fmt02 (c.start % 60) ++ "] " ++ c.text

/-- The transcript built by `handle_message`: one line per caption entry, in
order, joined by newlines. -/
def renderTranscript (captions : List CaptionEntry) : String :=
  joinNewline (captions.map transcriptLine)

/-- `MAX_TRANSCRIPT_CHARS` from `handle_message`. -/
def MAX_TRANSCRIPT_CHARS : Nat := 15000

/-- Python string slice `s[:n]`. -/
def pyTake (s : String) (n : Nat) : String := String.mk (s.data.take n)

/-- The truncation marker `handle_message` appends:
`f"\n[...transcript truncated at {MAX_TRANSCRIPT_CHARS} characters...]"`. -/
def truncMarker : String :=
  "\n[...transcript truncated at " ++ toString MAX_TRANSCRIPT_CHARS ++ " characters...]"

/-- The truncation step of `handle_message`. -/
def truncateTranscript (t : String) : String :=
  if t.length > MAX_TRANSCRIPT_CHARS then pyTake t MAX_TRANSCRIPT_CHARS ++ truncMarker
  else t

/-! ## Spec-side reading of transcript line labels -/

/-- Spec-side reading of a transcript line label: a leading `[`, two decimal
digits, `:`, two decimal digits, `] `, decoding to `60 * minutes + seconds`;
anything else reads as `none`. -/
def lineLabelValue (s : String) : Option Nat :=
  match s.data with
  | '[' :: a :: b :: ':' :: c :: d :: ']' :: ' ' :: _ =>
    if (a.isDigit && b.isDigit && c.isDigit && d.isDigit) then
      some ((10 * digitVal a + digitVal b) * 60 + (10 * digitVal c + digitVal d))
    else none
  | _ => none

/-! ## Catalog membership -/

/-- A `(url, ext)` pair naming an actual usable entry of a catalog. -/
def trackIn (si : SubsInfo) (r : String × String) : Prop :=
  ∃ l es e, (l, es) ∈ si ∧ e ∈ es ∧ e.url = some r.1 ∧ e.ext = some r.2 ∧ usable e = true

/-! ## Abstract SRT cues and their rendering -/

/-- Two-digit zero-padded decimal rendering (character list) of `n < 100`. -/
def twoDigits (n : Nat) : List Char := [digitChar (n / 10), digitChar (n % 10)]

/-- Three-digit zero-padded decimal rendering of `n < 1000`. -/
def threeDigits (n : Nat) : List Char :=
  [digitChar (n / 100), digitChar (n / 10 % 10), digitChar (n % 10)]

/-- An abstract well-formed SRT cue: its index line, the four start-timestamp
fields, the remainder of the timing line after `-->` (the end timestamp),
and its body lines. -/
structure SrtCue where
  index : String
  h : Nat
  m : Nat
  s : Nat
  ms : Nat
  tail : String
  body : List String

/-- The cue's timing line `HH:MM:SS,mmm --> <tail>`. -/
def srtTimingLine (c : SrtCue) : String :=
  String.mk (twoDigits c.h ++ ':' :: twoDigits c.m ++ ':' :: twoDigits c.s ++
    ',' :: threeDigits c.ms ++ ' ' :: '-' :: '-' :: '>' :: ' ' :: c.tail.data)

/-- Well-formedness per the claim: a digits index line, two-digit-renderable
time fields (three for the milliseconds), and at least one body line, none of
them blank. -/
def SrtCue.wf (c : SrtCue) : Prop :=
  isIndexLine c.index = true ∧ c.h < 100 ∧ c.m < 100 ∧ c.s < 100 ∧ c.ms < 1000 ∧
  c.body ≠ [] ∧ ∀ l ∈ c.body, pyStrip l ≠ ""

/-- The SRT document of a cue list, as lines: each block is the index line,
the timing line and the body lines, ended by a blank separator line. -/
def renderSrt : List SrtCue → List String
  | [] => []
  | c :: rest => c.index :: srtTimingLine c :: (c.body ++ [""] ++ renderSrt rest)

/-! ## Theorems -/

/-- A small helper for the parsers' fuel-adequacy proofs. -/
theorem length_dropWhile_le_self {α : Type} (p : α → Bool) (l : List α) :
    (l.dropWhile p).length ≤ l.length := by
  induction l with
  | nil => simp [List.dropWhile]
  | cons x xs ih =>
    by_cases h : p x
    · simp only [List.dropWhile_cons_of_pos h]
      exact Nat.le_trans ih (Nat.le_succ _)
    · simp [List.dropWhile_cons_of_neg h]

theorem srtSplit_rest_le (r : List String) : (srtSplit r).2.length ≤ r.length := by
  match r with
  | [] => simp [srtSplit]
  | r0 :: t =>
    by_cases h : r0 = ""
    · subst h
      cases t with
      | nil => simp [srtSplit]
      | cons t0 ts =>
        have he : (srtSplit ("" :: t0 :: ts)).2 = (ts.dropWhile (fun s => s != "")).drop 1 := rfl
        rw [he]
        have h1 := length_dropWhile_le_self (fun s => s != "") ts
        simp only [List.length_drop, List.length_cons]
        omega
    · simp only [srtSplit, if_neg h, List.length_cons, List.length_drop]
      have h1 := length_dropWhile_le_self (fun s => s != "") (r0 :: t)
      simp only [List.length_cons] at h1
      omega

/-- The fuel of `parseSrtAux` is irrelevant once it covers the line count. -/
theorem parseSrtAux_eq_of_le (fuel1 : Nat) : ∀ (fuel2 : Nat) (lines : List String),
    lines.length ≤ fuel1 → lines.length ≤ fuel2 →
    parseSrtAux fuel1 lines = parseSrtAux fuel2 lines := by
  induction fuel1 with
  | zero =>
    intro fuel2 lines h1 h2
    have hl : lines = [] := List.eq_nil_of_length_eq_zero (Nat.le_zero.mp h1)
    subst hl
    cases fuel2 with
    | zero => rfl
    | succ f => rfl
  | succ f1 ih =>
    intro fuel2 lines h1 h2
    cases lines with
    | nil => cases fuel2 with
      | zero => rfl
      | succ f => rfl
    | cons l1 rest =>
      cases fuel2 with
      | zero => simp at h2
      | succ f2 =>
        simp only [List.length_cons] at h1 h2
        show parseSrtAux (f1 + 1) (l1 :: rest) = parseSrtAux (f2 + 1) (l1 :: rest)
        simp only [parseSrtAux]
        by_cases hidx : isIndexLine l1
        · simp only [hidx, if_true]
          cases hdrop : rest.dropWhile wsOnly with
          | nil => rfl
          | cons l2 rest2 =>
            have hr2 : rest2.length < rest.length + 1 := by
              have := length_dropWhile_le_self wsOnly rest
              rw [hdrop] at this
              simp only [List.length_cons] at this
              omega
            cases hts : srtStart l2 with
            | some t =>
              have h3 := srtSplit_rest_le rest2
              have heq : parseSrtAux f1 (srtSplit rest2).2 = parseSrtAux f2 (srtSplit rest2).2 :=
                ih f2 (srtSplit rest2).2 (by omega) (by omega)
              simp [hts, heq]
            | none =>
              simp only [hts]
              exact ih f2 rest (by omega) (by omega)
        · simp only [hidx, if_false]
          exact ih f2 rest (by omega) (by omega)

/-- The fuel of `parseVttAux` is irrelevant once it covers the line count. -/
theorem parseVttAux_eq_of_le (fuel1 : Nat) : ∀ (fuel2 : Nat) (lines : List String),
    lines.length ≤ fuel1 → lines.length ≤ fuel2 →
    parseVttAux fuel1 lines = parseVttAux fuel2 lines := by
  induction fuel1 with
  | zero =>
    intro fuel2 lines h1 h2
    have hl : lines = [] := List.eq_nil_of_length_eq_zero (Nat.le_zero.mp h1)
    subst hl
    cases fuel2 with
    | zero => rfl
    | succ f => rfl
  | succ f1 ih =>
    intro fuel2 lines h1 h2
    cases lines with
    | nil => cases fuel2 with
      | zero => rfl
      | succ f => rfl
    | cons l rest =>
      cases fuel2 with
      | zero => simp at h2
      | succ f2 =>
        simp only [List.length_cons] at h1 h2
        show parseVttAux (f1 + 1) (l :: rest) = parseVttAux (f2 + 1) (l :: rest)
        simp only [parseVttAux]
        by_cases harr : hasArrow l
        · simp only [harr, if_true]
          have hlen : ((rest.dropWhile (fun s => pyStrip s != "")).drop 1).length ≤ rest.length := by
            have := length_dropWhile_le_self (fun s => pyStrip s != "") rest
            simp only [List.length_drop]
            omega
          have heq : parseVttAux f1 ((rest.dropWhile (fun s => pyStrip s != "")).drop 1) =
              parseVttAux f2 ((rest.dropWhile (fun s => pyStrip s != "")).drop 1) :=
            ih f2 _ (by omega) (by omega)
          rw [List.drop_one] at heq
          simp [heq]
        · simp only [harr, if_false]
          exact ih f2 rest (by omega) (by omega)

/-! ## Supporting lemmas -/

theorem takeWhile_append_stop {α : Type} (p : α → Bool) (a : List α) (x : α) (t : List α)
    (ha : ∀ y ∈ a, p y = true) (hx : p x = false) :
    (a ++ x :: t).takeWhile p = a := by
  induction a with
  | nil =>
    simp only [List.nil_append]
    exact List.takeWhile_cons_of_neg (by simp [hx])
  | cons y ys ih =>
    have hy : p y = true := ha y (by simp)
    simp only [List.cons_append, List.takeWhile_cons_of_pos hy]
    rw [ih (fun z hz => ha z (by simp [hz]))]

theorem dropWhile_append_stop {α : Type} (p : α → Bool) (a : List α) (x : α) (t : List α)
    (ha : ∀ y ∈ a, p y = true) (hx : p x = false) :
    (a ++ x :: t).dropWhile p = x :: t := by
  induction a with
  | nil =>
    simp only [List.nil_append]
    exact List.dropWhile_cons_of_neg (by simp [hx])
  | cons y ys ih =>
    have hy : p y = true := ha y (by simp)
    simp only [List.cons_append, List.dropWhile_cons_of_pos hy]
    exact ih (fun z hz => ha z (by simp [hz]))

theorem string_append_ne_empty_left (a b : String) (h : a ≠ "") : a ++ b ≠ "" := by
  intro hc
  apply h
  have hd : a.data ++ b.data = [] := by
    have h2 := congrArg String.data hc
    rw [String.data_append] at h2
    exact h2
  exact String.ext (List.append_eq_nil.mp hd).1

theorem joinSpace_ne_empty (x : String) (xs : List String) (h : x ≠ "") :
    joinSpace (x :: xs) ≠ "" := by
  cases xs with
  | nil => simpa [joinSpace] using h
  | cons y ys =>
    show x ++ " " ++ joinSpace (y :: ys) ≠ ""
    exact string_append_ne_empty_left _ _ (string_append_ne_empty_left _ _ h)

/-! ## Claim theorems -/

/-- C9: a transcript whose length is within `MAX_TRANSCRIPT_CHARS` is returned
unchanged by the truncation step of `handle_message`; one over the budget is
cut to exactly the budget — the kept part a prefix of the original — with the
truncation marker appended, the total length being budget plus marker. -/
theorem C9_truncation (t : String) :
    (t.length ≤ MAX_TRANSCRIPT_CHARS ∧ truncateTranscript t = t) ∨
    (MAX_TRANSCRIPT_CHARS < t.length ∧
      truncateTranscript t = pyTake t MAX_TRANSCRIPT_CHARS ++ truncMarker ∧
      (pyTake t MAX_TRANSCRIPT_CHARS).length = MAX_TRANSCRIPT_CHARS ∧
      (pyTake t MAX_TRANSCRIPT_CHARS).data <+: t.data ∧
      (truncateTranscript t).length = MAX_TRANSCRIPT_CHARS + truncMarker.length) := by
  by_cases h : t.length > MAX_TRANSCRIPT_CHARS
  · right
    have hlen : (pyTake t MAX_TRANSCRIPT_CHARS).length = MAX_TRANSCRIPT_CHARS := by
      show (t.data.take MAX_TRANSCRIPT_CHARS).length = MAX_TRANSCRIPT_CHARS
      rw [List.length_take]
      have ht : t.length = t.data.length := rfl
      omega
    refine ⟨h, by simp [truncateTranscript, h], hlen, ?_, ?_⟩
    · exact List.take_prefix _ _
    · rw [show truncateTranscript t = pyTake t MAX_TRANSCRIPT_CHARS ++ truncMarker from by
        simp [truncateTranscript, h]]
      rw [String.length_append, hlen]
  · left
    exact ⟨Nat.le_of_not_lt h, by simp [truncateTranscript, h]⟩

/-- C6 counterexample: for a format tag other than srt/vtt — here `ttml`, a
tag `_pick` can actually select — `parse_captions` returns `none` (Python
`None`), which is not an empty entry sequence. -/
theorem C6_counterexample :
    parse_captions [] "ttml" = none ∧ (none : Option (List CaptionEntry)) ≠ some [] := by
  exact ⟨by decide, by decide⟩

/-- C6 amended: the parsing entry point is a total function; for the `srt` and
`vtt` tags it returns a (possibly empty) entry list — in particular the empty
raw body yields the empty sequence — while for any other tag it returns `none`
(Python `None`), not an empty sequence. -/
theorem C6_parse_captions_total (lines : List String) :
    parse_captions lines "srt" = some (parse_srt lines) ∧
    parse_captions lines "vtt" = some (parse_vtt lines) ∧
    parse_captions [] "srt" = some [] ∧
    parse_captions [] "vtt" = some [] ∧
    ∀ ext, ext ≠ "srt" → ext ≠ "vtt" → parse_captions lines ext = none := by
  refine ⟨rfl, ?_, by decide, by decide, ?_⟩
  · simp +decide [parse_captions]
  · intro ext h1 h2
    simp [parse_captions, h1, h2]

/-- C6 witness: the amended statement evaluated at the empty body and the
`json3` tag. -/
theorem C6_parse_captions_total_witness : parse_captions [] "json3" = none :=
  (C6_parse_captions_total []).2.2.2.2 "json3" (by decide) (by decide)

/-- C2 counterexample: when the direct-captions call succeeds but every raw
item has empty text, `fetch_transcript` returns the empty sequence with zero
extractor invocations — even in an environment where the extractor leg had a
usable track that parses to entries (second conjunct) — instead of proceeding
to the extractor. -/
theorem C2_counterexample :
    fetch_transcript (DirectOutcome.ok [RawItem.mk 0 ""])
        (ExtractorEnv.mk
          (some (YInfo.mk (some [("en", [SubEntry.mk (some "srt") (some "u")])]) none))
          (fun _ => some ["1", "00:01:00,000 --> x", "hi", ""])) ["en"] =
      (some [], 0) ∧
    fetch_transcript DirectOutcome.unavailable
        (ExtractorEnv.mk
          (some (YInfo.mk (some [("en", [SubEntry.mk (some "srt") (some "u")])]) none))
          (fun _ => some ["1", "00:01:00,000 --> x", "hi", ""])) ["en"] =
      (some [CaptionEntry.mk 60 "hi"], 1) := by
  exact ⟨by decide, by decide⟩

/-- C2 amended: whenever the direct-captions call succeeds, `fetch_transcript`
returns the processed sequence as the final result with zero extractor
invocations — even when that sequence is empty because every item's text is
empty; the extractor is reached only when the direct call raises. -/
theorem C2_direct_empty_returned (env : ExtractorEnv) (langs : List String)
    (data : List RawItem) (h : ∀ it ∈ data, it.text = "") :
    fetch_transcript (DirectOutcome.ok data) env langs = (some [], 0) := by
  have hf : processDirect data = [] := by
    unfold processDirect
    have hfilter : data.filter (fun it => it.text != "") = [] := by
      rw [List.filter_eq_nil_iff]
      intro a ha
      simp [h a ha]
    rw [hfilter]
    rfl
  show (some (processDirect data), 0) = (some [], 0)
  rw [hf]

/-- C2 witness: the amended statement evaluated at a one-item all-empty-text
direct result. -/
theorem C2_direct_empty_returned_witness :
    fetch_transcript (DirectOutcome.ok [RawItem.mk 5 ""])
      (ExtractorEnv.mk none (fun _ => none)) ["ru"] = (some [], 0) :=
  C2_direct_empty_returned (ExtractorEnv.mk none (fun _ => none)) ["ru"]
    [RawItem.mk 5 ""] (by decide)

/-- C1: when the direct-captions source is unavailable, `fetch_transcript`
invokes the extractor exactly once — whatever the extractor environment and
languages, in particular also when the run ends concluding no captions are
available — and when the direct source succeeded it never invokes the
extractor (zero invocations), in particular when the processed sequence is
non-empty. -/
theorem C1_extractor_once (env : ExtractorEnv) (langs : List String) :
    (fetch_transcript DirectOutcome.unavailable env langs).2 = 1 ∧
    ∀ data, processDirect data ≠ [] →
      (fetch_transcript (DirectOutcome.ok data) env langs).2 = 0 := by
  exact ⟨rfl, fun data _ => rfl⟩

/-- C1 witness: the theorem evaluated at a trivial extractor environment and a
one-item direct success. -/
theorem C1_extractor_once_witness :
    (fetch_transcript DirectOutcome.unavailable
      (ExtractorEnv.mk none (fun _ => none)) ["en"]).2 = 1 ∧
    (fetch_transcript (DirectOutcome.ok [RawItem.mk 0 "hi"])
      (ExtractorEnv.mk none (fun _ => none)) ["en"]).2 = 0 :=
  ⟨(C1_extractor_once (ExtractorEnv.mk none (fun _ => none)) ["en"]).1,
    (C1_extractor_once (ExtractorEnv.mk none (fun _ => none)) ["en"]).2
      [RawItem.mk 0 "hi"] (by decide)⟩

theorem digitChar_isDigit : ∀ n, n < 10 → (digitChar n).isDigit = true := by decide

theorem digitVal_digitChar : ∀ n, n < 10 → digitVal (digitChar n) = n := by decide

theorem fmt02_eq_digits : ∀ n, n < 100 →
    (fmt02 n).data = [digitChar (n / 10), digitChar (n % 10)] := by decide

/-- C4 counterexample: a block starting at 3660 s (61 minutes) renders as
`[61:00] hi` — a single-colon total-minutes label — and not as the
`[HH:MM:SS]`-shaped `[01:01:00] hi` the claim requires past 60 minutes. -/
theorem C4_counterexample :
    renderTranscript [CaptionEntry.mk 3660 "hi"] = "[61:00] hi" ∧
    "[61:00] hi" ≠ "[01:01:00] hi" ∧
    ("[61:00] hi").data.count ':' = 1 := by
  exact ⟨by decide, by decide, by decide⟩

/-- C4 amended: the transcript is the newline-join of one line per block, in
chronological block order, each of the form `[MM:SS] text` where `MM` is the
block's total minutes (not capped at 59 — no `[HH:MM:SS]` form is ever
produced) and `SS` the residual seconds, both zero-padded to two digits; the
label decodes back to the block's start time. Stated for blocks under 100
minutes, where both fields are exactly two digits. -/
theorem C4_transcript_lines (captions : List CaptionEntry)
    (h : ∀ c ∈ captions, c.start < 6000) :
    renderTranscript captions = joinNewline (captions.map transcriptLine) ∧
    ∀ c ∈ captions, lineLabelValue (transcriptLine c) = some c.start := by
  refine ⟨rfl, ?_⟩
  intro c hc
  have hs := h c hc
  have hmin : c.start / 60 < 100 := by omega
  have hsec : c.start % 60 < 100 := by
    have := Nat.mod_lt c.start (show 0 < 60 by decide)
    omega
  have h1 := fmt02_eq_digits (c.start / 60) hmin
  have h2 := fmt02_eq_digits (c.start % 60) hsec
  have hdata : (transcriptLine c).data =
      '[' :: digitChar (c.start / 60 / 10) :: digitChar (c.start / 60 % 10) :: ':' ::
        digitChar (c.start % 60 / 10) :: digitChar (c.start % 60 % 10) :: ']' :: ' ' ::
        c.text.data := by
    show ("[" ++ fmt02 (c.start / 60) ++ ":" ++ fmt02 (c.start % 60) ++ "] " ++ c.text).data = _
    simp [String.data_append, h1, h2,
      show ("[" : String).data = ['['] from rfl,
      show (":" : String).data = [':'] from rfl,
      show ("] " : String).data = [']', ' '] from rfl]
  have da := digitChar_isDigit (c.start / 60 / 10) (by omega)
  have db := digitChar_isDigit (c.start / 60 % 10) (by omega)
  have dc := digitChar_isDigit (c.start % 60 / 10) (by omega)
  have dd := digitChar_isDigit (c.start % 60 % 10) (by omega)
  have va := digitVal_digitChar (c.start / 60 / 10) (by omega)
  have vb := digitVal_digitChar (c.start / 60 % 10) (by omega)
  have vc := digitVal_digitChar (c.start % 60 / 10) (by omega)
  have vd := digitVal_digitChar (c.start % 60 % 10) (by omega)
  unfold lineLabelValue
  rw [hdata]
  simp only [da, db, dc, dd, Bool.and_self, Bool.and_true, if_true, va, vb, vc, vd]
  congr 1
  omega

/-- C4 witness: the amended statement evaluated at a single block starting at
65 seconds. -/
theorem C4_transcript_lines_witness :
    renderTranscript [CaptionEntry.mk 65 "world"] =
      joinNewline ([CaptionEntry.mk 65 "world"].map transcriptLine) ∧
    lineLabelValue (transcriptLine (CaptionEntry.mk 65 "world")) = some 65 := by
  have h := C4_transcript_lines [CaptionEntry.mk 65 "world"] (by decide)
  exact ⟨h.1, h.2 (CaptionEntry.mk 65 "world") (by simp)⟩

/-- C5 counterexample: two entries sharing timestamp 0 render as two separate
labeled lines (one newline, two labels), not as the single space-joined block
`[00:00] a b` the claim requires. -/
theorem C5_counterexample :
    renderTranscript [CaptionEntry.mk 0 "a", CaptionEntry.mk 0 "b"] = "[00:00] a\n[00:00] b" ∧
    renderTranscript [CaptionEntry.mk 0 "a", CaptionEntry.mk 0 "b"] ≠ "[00:00] a b" := by
  exact ⟨by decide, by decide⟩

/-- C5 amended: the rendering step performs no bucketing at all: a non-empty
sequence of entries all sharing one start timestamp yields one output line per
entry — as many lines as entries, each carrying that timestamp's label and the
single entry's text — rather than one merged TranscriptBlock with the texts
space-joined. -/
theorem C5_no_bucketing (t : Nat) (texts : List String) (h : texts ≠ []) :
    renderTranscript (texts.map (fun x => CaptionEntry.mk t x)) =
      joinNewline (texts.map (fun x =>
        "[" ++ fmt02 (t / 60) ++ ":" ++ fmt02 (t % 60) ++ "] " ++ x)) ∧
    ((texts.map (fun x => CaptionEntry.mk t x)).map transcriptLine).length = texts.length ∧
    (texts.map (fun x => CaptionEntry.mk t x)).map transcriptLine ≠ [] := by
  refine ⟨?_, by simp, ?_⟩
  · show joinNewline ((texts.map (fun x => CaptionEntry.mk t x)).map transcriptLine) = _
    rw [List.map_map]
    rfl
  · cases texts with
    | nil => exact absurd rfl h
    | cons a b => simp

/-- C5 witness: the amended statement evaluated at two entries sharing
timestamp 0. -/
theorem C5_no_bucketing_witness :
    renderTranscript (["a", "b"].map (fun x => CaptionEntry.mk 0 x)) =
      joinNewline (["a", "b"].map (fun x =>
        "[" ++ fmt02 0 ++ ":" ++ fmt02 0 ++ "] " ++ x)) ∧
    ((["a", "b"].map (fun x => CaptionEntry.mk 0 x)).map transcriptLine).length = 2 :=
  ⟨(C5_no_bucketing 0 ["a", "b"] (by decide)).1,
    (C5_no_bucketing 0 ["a", "b"] (by decide)).2.1⟩

/-! ## C7: VTT cue safety -/

/-- Unfolding `parse_vtt` at a non-header line: the scan just moves on. -/
theorem parse_vtt_cons_noarrow (l : String) (rest : List String)
    (h : hasArrow l = false) :
    parse_vtt (l :: rest) = parse_vtt rest := by
  show parseVttAux (rest.length + 1) (l :: rest) = parse_vtt rest
  simp only [parseVttAux, h, Bool.false_eq_true, if_false]
  rfl

/-- Unfolding `parse_vtt` at a cue header line: the cue's entries (if any),
then the scan resumes after the body's terminating line. -/
theorem parse_vtt_cons_arrow (l : String) (rest : List String)
    (h : hasArrow l = true) :
    parse_vtt (l :: rest) =
      (match vttStart l, (rest.takeWhile (fun s => pyStrip s != "")).map pyStrip with
       | some t, _ :: _ =>
         [CaptionEntry.mk t (joinSpace ((rest.takeWhile (fun s => pyStrip s != "")).map pyStrip))]
       | _, _ => []) ++
      parse_vtt ((rest.dropWhile (fun s => pyStrip s != "")).drop 1) := by
  show parseVttAux (rest.length + 1) (l :: rest) = _
  simp only [parseVttAux, h, if_true]
  congr 1
  apply parseVttAux_eq_of_le
  · have h1 := length_dropWhile_le_self (fun s => pyStrip s != "") rest
    simp only [List.length_drop]
    omega
  · exact Nat.le_refl _

/-- C7: a VTT cue header line (a line containing `-->`) that is not followed
by a non-blank body line contributes zero entries — whether it ends the input
or a blank line follows — and the total scan never crashes (`parse_vtt` is a
total function); a header whose timestamp does not parse contributes zero
entries while the scan continues with the lines after the cue, so later cues
are still parsed. -/
theorem C7_vtt_cue_safety (l : String) (body tail : List String)
    (harrow : hasArrow l = true) (hbody : ∀ x ∈ body, pyStrip x ≠ "") :
    parse_vtt [l] = [] ∧
    parse_vtt (l :: "" :: tail) = parse_vtt tail ∧
    (vttStart l = none → parse_vtt (l :: (body ++ "" :: tail)) = parse_vtt tail) := by
  have hstop : (fun s => pyStrip s != "") "" = false := by decide
  refine ⟨?_, ?_, ?_⟩
  · rw [parse_vtt_cons_arrow l [] harrow]
    cases hv : vttStart l with
    | some t => simp [List.takeWhile, List.dropWhile, hv, parse_vtt, parseVttAux]
    | none => simp [List.takeWhile, List.dropWhile, hv, parse_vtt, parseVttAux]
  · rw [parse_vtt_cons_arrow l ("" :: tail) harrow]
    rw [List.takeWhile_cons_of_neg (by decide), List.dropWhile_cons_of_neg (by decide)]
    cases hv : vttStart l with
    | some t => simp
    | none => simp
  · intro hv
    rw [parse_vtt_cons_arrow l (body ++ "" :: tail) harrow]
    have hp : ∀ y ∈ body, (fun s => pyStrip s != "") y = true := by
      intro y hy
      simp [hbody y hy]
    rw [takeWhile_append_stop _ body "" tail hp hstop,
      dropWhile_append_stop _ body "" tail hp hstop]
    simp [hv]

/-- C7 witness: the theorem evaluated at the header `-->` (which contains the
arrow but has no parsable timestamp), a one-line body and a one-line tail. -/
theorem C7_vtt_cue_safety_witness :
    parse_vtt ["-->"] = [] ∧
    parse_vtt ["-->", "", "z"] = parse_vtt ["z"] ∧
    parse_vtt ["-->", "x", "", "z"] = parse_vtt ["z"] := by
  have h := C7_vtt_cue_safety "-->" ["x"] ["z"] (by decide) (by decide)
  exact ⟨h.1, h.2.1, h.2.2 (by decide)⟩

theorem usable_shape (e : SubEntry) (h : usable e = true) :
    ∃ x u, e.ext = some x ∧ e.url = some u ∧ (prefFormats.contains x && u != "") = true := by
  unfold usable at h
  cases hx : e.ext with
  | none => rw [hx] at h; simp at h
  | some x =>
    cases hu : e.url with
    | none => rw [hx, hu] at h; simp at h
    | some u =>
      rw [hx, hu] at h
      exact ⟨x, u, rfl, rfl, h⟩

theorem pickEntry_cons (e : SubEntry) (rest : List SubEntry) :
    pickEntry (e :: rest) =
      if usable e then some (e.url.getD "", e.ext.getD "") else pickEntry rest := by
  cases hx : e.ext with
  | none => simp [pickEntry, usable, hx]
  | some x =>
    cases hu : e.url with
    | none => simp [pickEntry, usable, hx, hu]
    | some u =>
      by_cases hc : (prefFormats.contains x && u != "") = true
      · simp [pickEntry, usable, hx, hu, hc]
      · simp [pickEntry, usable, hx, hu, hc]

theorem pickEntry_eq_none_iff (es : List SubEntry) :
    pickEntry es = none ↔ ∀ e ∈ es, usable e = false := by
  induction es with
  | nil => simp [pickEntry]
  | cons e rest ih =>
    rw [pickEntry_cons, List.forall_mem_cons]
    by_cases hu : usable e = true
    · simp [hu]
    · simp only [Bool.not_eq_true] at hu
      simp [hu, ih]

theorem pickEntry_mem (es : List SubEntry) (u x : String)
    (h : pickEntry es = some (u, x)) :
    ∃ e ∈ es, e.url = some u ∧ e.ext = some x ∧ usable e = true := by
  induction es with
  | nil => simp [pickEntry] at h
  | cons e rest ih =>
    rw [pickEntry_cons] at h
    by_cases husable : usable e = true
    · rw [if_pos husable] at h
      obtain ⟨x2, u2, hx2, hu2, _⟩ := usable_shape e husable
      rw [hx2, hu2] at h
      simp only [Option.getD_some] at h
      have hpair := Option.some.inj h
      have h1 : u2 = u := congrArg Prod.fst hpair
      have h2 : x2 = x := congrArg Prod.snd hpair
      subst h1
      subst h2
      exact ⟨e, List.mem_cons_self _ _, hu2, hx2, husable⟩
    · rw [if_neg husable] at h
      obtain ⟨e2, he2, hprop⟩ := ih h
      exact ⟨e2, List.mem_cons_of_mem _ he2, hprop⟩

theorem lookupLang_mem (si : SubsInfo) (lang : String) (es : List SubEntry)
    (h : lookupLang si lang = some es) : (lang, es) ∈ si := by
  induction si with
  | nil => simp [lookupLang] at h
  | cons p rest ih =>
    obtain ⟨l, es2⟩ := p
    by_cases hl : l = lang
    · subst hl
      rw [lookupLang, if_pos rfl] at h
      rw [← Option.some.inj h]
      exact List.mem_cons_self _ _
    · rw [lookupLang, if_neg hl] at h
      exact List.mem_cons_of_mem _ (ih h)

theorem pickAny_eq_none_iff (si : SubsInfo) :
    pickAny si = none ↔ ∀ p ∈ si, ∀ e ∈ p.2, usable e = false := by
  induction si with
  | nil => simp [pickAny]
  | cons p rest ih =>
    obtain ⟨l, es⟩ := p
    rw [List.forall_mem_cons]
    cases hpe : pickEntry es with
    | some r =>
      rw [pickAny, hpe]
      simp only [reduceCtorEq, false_iff]
      intro hall
      obtain ⟨u, x⟩ := r
      obtain ⟨e, he, _, _, husable⟩ := pickEntry_mem es u x hpe
      exact absurd husable (by simp [hall.1 e he])
    | none =>
      rw [pickAny, hpe, ih]
      have hhead : ∀ e ∈ es, usable e = false := (pickEntry_eq_none_iff es).mp hpe
      constructor
      · exact fun hall => ⟨hhead, hall⟩
      · exact fun hall => hall.2

theorem pickAny_mem (si : SubsInfo) (r : String × String)
    (h : pickAny si = some r) : trackIn si r := by
  induction si with
  | nil => simp [pickAny] at h
  | cons p rest ih =>
    obtain ⟨l, es⟩ := p
    cases hpe : pickEntry es with
    | some r2 =>
      rw [pickAny, hpe] at h
      obtain ⟨u, x⟩ := r2
      obtain ⟨e, he, hurl, hext, husable⟩ := pickEntry_mem es u x hpe
      rw [← Option.some.inj h]
      exact ⟨l, es, e, List.mem_cons_self _ _, he, hurl, hext, husable⟩
    | none =>
      rw [pickAny, hpe] at h
      obtain ⟨l2, es2, e2, hmem, hrest⟩ := ih h
      exact ⟨l2, es2, e2, List.mem_cons_of_mem _ hmem, hrest⟩

theorem pickPreferred_mem (si : SubsInfo) (langs : List String) (r : String × String)
    (h : pickPreferred si langs = some r) : trackIn si r := by
  induction langs with
  | nil => simp [pickPreferred] at h
  | cons lang rest ih =>
    cases hl : lookupLang si lang with
    | none =>
      simp only [pickPreferred, hl] at h
      exact ih h
    | some es =>
      simp only [pickPreferred, hl] at h
      cases hpe : pickEntry es with
      | some r2 =>
        rw [hpe] at h
        simp only [] at h
        obtain ⟨u, x⟩ := r2
        obtain ⟨e, he, hurl, hext, husable⟩ := pickEntry_mem es u x hpe
        rw [← Option.some.inj h]
        exact ⟨lang, es, e, lookupLang_mem si lang es hl, he, hurl, hext, husable⟩
      | none =>
        rw [hpe] at h
        simp only [] at h
        exact ih h

theorem pickPreferred_isSome (si : SubsInfo) (langs : List String)
    (h : ∃ l ∈ langs, ∃ es, lookupLang si l = some es ∧ ∃ e ∈ es, usable e = true) :
    ∃ r, pickPreferred si langs = some r := by
  induction langs with
  | nil => simp at h
  | cons lang rest ih =>
    obtain ⟨l, hl, es, hes, e, he, hu⟩ := h
    rcases List.mem_cons.mp hl with rfl | hmem
    · cases hpe : pickEntry es with
      | some r =>
        refine ⟨r, ?_⟩
        simp only [pickPreferred, hes, hpe]
      | none =>
        exact absurd hu (by simp [(pickEntry_eq_none_iff es).mp hpe e he])
    · cases hlook : lookupLang si lang with
      | none =>
        obtain ⟨r, hr⟩ := ih ⟨l, hmem, es, hes, e, he, hu⟩
        refine ⟨r, ?_⟩
        simp only [pickPreferred, hlook, hr]
      | some es2 =>
        cases hpe : pickEntry es2 with
        | some r =>
          refine ⟨r, ?_⟩
          simp only [pickPreferred, hlook, hpe]
        | none =>
          obtain ⟨r, hr⟩ := ih ⟨l, hmem, es, hes, e, he, hu⟩
          refine ⟨r, ?_⟩
          simp only [pickPreferred, hlook, hpe, hr]

theorem pick_eq_none_iff (si : SubsInfo) (langs : List String) :
    pick (some si) langs = none ↔ ∀ p ∈ si, ∀ e ∈ p.2, usable e = false := by
  show (if si.isEmpty then none
    else match pickPreferred si langs with
      | some r => some r
      | none => pickAny si) = none ↔ _
  cases si with
  | nil => simp
  | cons p rest =>
    rw [if_neg (by simp)]
    cases hp : pickPreferred (p :: rest) langs with
    | some r =>
      simp only [hp, reduceCtorEq, false_iff]
      intro hall
      obtain ⟨l, es, e, hmem, he, _, _, hu⟩ := pickPreferred_mem (p :: rest) langs r hp
      exact absurd hu (by simp [hall (l, es) hmem e he])
    | none =>
      simp only [hp]
      exact pickAny_eq_none_iff (p :: rest)

theorem pick_mem (si : SubsInfo) (langs : List String) (r : String × String)
    (h : pick (some si) langs = some r) : trackIn si r := by
  have h2 : (if si.isEmpty then none
    else match pickPreferred si langs with
      | some r => some r
      | none => pickAny si) = some r := h
  cases si with
  | nil => simp at h2
  | cons p rest =>
    rw [if_neg (by simp)] at h2
    cases hp : pickPreferred (p :: rest) langs with
    | some r2 =>
      simp only [hp] at h2
      rw [← Option.some.inj h2]
      exact pickPreferred_mem (p :: rest) langs r2 hp
    | none =>
      simp only [hp] at h2
      exact pickAny_mem (p :: rest) r h2

/-- C8 counterexample: with one preferred language whose manual catalog lists
a usable VTT track before a usable SRT track, `_pick` (and hence the track
selection of `fetch_transcript`) returns the VTT one — first in catalog order
— not the SRT one the claim requires. -/
theorem C8_counterexample :
    pickTrack
      (YInfo.mk
        (some [("en", [SubEntry.mk (some "vtt") (some "u1"),
          SubEntry.mk (some "srt") (some "u2")])]) none) ["en"] = some ("u1", "vtt") ∧
    ("u1", "vtt") ≠ ("u2", "srt") := by
  exact ⟨by decide, by decide⟩

/-- C8 amended: whenever some preferred language has a usable manual track
(accepted format, non-empty url), the selection returns the manual catalog's
pick — the automatic captions are never consulted — and the result names an
actual entry of the manual catalog; within a language the pick is the first
usable entry in catalog order, with no SRT-over-VTT preference. -/
theorem C8_manual_over_auto (si : SubsInfo) (auto : Option SubsInfo) (langs : List String)
    (h : ∃ l ∈ langs, ∃ es, lookupLang si l = some es ∧ ∃ e ∈ es, usable e = true) :
    ∃ r, pickTrack (YInfo.mk (some si) auto) langs = some r ∧
      pick (some si) langs = some r ∧ trackIn si r := by
  obtain ⟨r, hr⟩ := pickPreferred_isSome si langs h
  have hne : si.isEmpty = false := by
    cases si with
    | nil =>
      obtain ⟨l, _, es, hes, _⟩ := h
      simp [lookupLang] at hes
    | cons p rest => rfl
  have hpick : pick (some si) langs = some r := by
    show (if si.isEmpty then none
      else match pickPreferred si langs with
        | some r => some r
        | none => pickAny si) = some r
    rw [hne]
    simp only [hr, Bool.false_eq_true, if_false]
  refine ⟨r, ?_, hpick, pick_mem si langs r hpick⟩
  show (match pick (some si) langs with
    | some r => some r
    | none => pick auto langs) = some r
  simp only [hpick]

/-- C8 witness: the amended statement evaluated at a manual catalog holding
one usable VTT track for `en` and an automatic catalog holding an SRT one. -/
theorem C8_manual_over_auto_witness :
    ∃ r, pickTrack (YInfo.mk (some [("en", [SubEntry.mk (some "vtt") (some "u1")])])
        (some [("en", [SubEntry.mk (some "srt") (some "a1")])])) ["en"] = some r ∧
      pick (some [("en", [SubEntry.mk (some "vtt") (some "u1")])]) ["en"] = some r ∧
      trackIn [("en", [SubEntry.mk (some "vtt") (some "u1")])] r :=
  C8_manual_over_auto [("en", [SubEntry.mk (some "vtt") (some "u1")])]
    (some [("en", [SubEntry.mk (some "srt") (some "a1")])]) ["en"]
    ⟨"en", by decide, [SubEntry.mk (some "vtt") (some "u1")], by decide,
      SubEntry.mk (some "vtt") (some "u1"), by decide, by decide⟩

/-- C10: `_pick` returns no track exactly when no language of the catalog —
preferred or not — has a usable entry (accepted format and non-empty url);
contrapositively, when any available language has one it falls back to a track
rather than returning nothing, and every returned track names an actual usable
entry of the catalog. -/
theorem C10_any_language_fallback (si : SubsInfo) (langs : List String) :
    (pick (some si) langs = none ↔ ∀ p ∈ si, ∀ e ∈ p.2, usable e = false) ∧
    ∀ r, pick (some si) langs = some r → trackIn si r :=
  ⟨pick_eq_none_iff si langs, fun r h => pick_mem si langs r h⟩

/-- C10 witness: the theorem evaluated at a catalog whose only language `fr`
is not preferred; the fallback still selects its track. -/
theorem C10_any_language_fallback_witness :
    trackIn [("fr", [SubEntry.mk (some "srt") (some "u")])] ("u", "srt") :=
  (C10_any_language_fallback [("fr", [SubEntry.mk (some "srt") (some "u")])] ["en"]).2
    ("u", "srt") (by decide)

theorem digitChar_not_ws : ∀ n, n < 10 → (digitChar n).isWhitespace = false := by decide

theorem pyStrip_empty : pyStrip "" = "" := rfl

theorem ne_empty_of_pyStrip (l : String) (h : pyStrip l ≠ "") : l ≠ "" := by
  intro hc
  rw [hc] at h
  exact h pyStrip_empty

/-- The rendered timing line is not whitespace-only (it starts with a digit). -/
theorem wsOnly_srtTimingLine (c : SrtCue) (hh : c.h < 100) :
    wsOnly (srtTimingLine c) = false := by
  have hd : (srtTimingLine c).data = digitChar (c.h / 10) :: (digitChar (c.h % 10) ::
      ':' :: twoDigits c.m ++ ':' :: twoDigits c.s ++
      ',' :: threeDigits c.ms ++ ' ' :: '-' :: '-' :: '>' :: ' ' :: c.tail.data) := rfl
  unfold wsOnly
  rw [hd]
  simp [digitChar_not_ws (c.h / 10) (by omega)]

/-- `srtStart` parses the rendered timing line to the cue's start time. -/
theorem srtStart_srtTimingLine (c : SrtCue)
    (hh : c.h < 100) (hm : c.m < 100) (hs : c.s < 100) (hms : c.ms < 1000) :
    srtStart (srtTimingLine c) = some (ts2sec c.h c.m c.s) := by
  have hd : (srtTimingLine c).data =
      digitChar (c.h / 10) :: digitChar (c.h % 10) :: ':' ::
      digitChar (c.m / 10) :: digitChar (c.m % 10) :: ':' ::
      digitChar (c.s / 10) :: digitChar (c.s % 10) :: ',' ::
      digitChar (c.ms / 100) :: digitChar (c.ms / 10 % 10) :: digitChar (c.ms % 10) ::
      (' ' :: '-' :: '-' :: '>' :: ' ' :: c.tail.data) := rfl
  unfold srtStart
  rw [hd]
  have d1 := digitChar_isDigit (c.h / 10) (by omega)
  have d2 := digitChar_isDigit (c.h % 10) (by omega)
  have d3 := digitChar_isDigit (c.m / 10) (by omega)
  have d4 := digitChar_isDigit (c.m % 10) (by omega)
  have d5 := digitChar_isDigit (c.s / 10) (by omega)
  have d6 := digitChar_isDigit (c.s % 10) (by omega)
  have d7 := digitChar_isDigit (c.ms / 100) (by omega)
  have d8 := digitChar_isDigit (c.ms / 10 % 10) (by omega)
  have d9 := digitChar_isDigit (c.ms % 10) (by omega)
  have harrow : List.isPrefixOf ['-', '-', '>']
      ((' ' :: '-' :: '-' :: '>' :: ' ' :: c.tail.data).dropWhile Char.isWhitespace) = true := by
    rw [List.dropWhile_cons_of_pos (by decide)]
    rw [List.dropWhile_cons_of_neg (by decide)]
    simp [List.isPrefixOf]
  simp only [d1, d2, d3, d4, d5, d6, d7, d8, d9, harrow, Bool.and_self, Bool.and_true,
    Bool.true_and, beq_self_eq_true, if_true]
  have v1 := digitVal_digitChar (c.h / 10) (by omega)
  have v2 := digitVal_digitChar (c.h % 10) (by omega)
  have v3 := digitVal_digitChar (c.m / 10) (by omega)
  have v4 := digitVal_digitChar (c.m % 10) (by omega)
  have v5 := digitVal_digitChar (c.s / 10) (by omega)
  have v6 := digitVal_digitChar (c.s % 10) (by omega)
  rw [v1, v2, v3, v4, v5, v6]
  have hgoal : ts2sec (10 * (c.h / 10) + c.h % 10) (10 * (c.m / 10) + c.m % 10)
      (10 * (c.s / 10) + c.s % 10) = ts2sec c.h c.m c.s := by
    unfold ts2sec
    omega
  rw [hgoal]

/-- A well-formed body joins to a non-empty cue text. -/
theorem srtBody_ne_empty (body : List String) (hne : body ≠ [])
    (hall : ∀ l ∈ body, pyStrip l ≠ "") : srtBody body ≠ "" := by
  unfold srtBody
  have hfilter : (body.map pyStrip).filter (fun s => s != "") = body.map pyStrip := by
    rw [List.filter_eq_self]
    intro a ha
    obtain ⟨l, hl, rfl⟩ := List.mem_map.mp ha
    simp [hall l hl]
  rw [hfilter]
  cases body with
  | nil => exact absurd rfl hne
  | cons b bs =>
    exact joinSpace_ne_empty _ _ (hall b (List.mem_cons_self _ _))

/-- `srtSplit` at a non-blank first body line: the plain takeWhile/dropWhile
split. -/
theorem srtSplit_cons_ne (r0 : String) (t : List String) (h : r0 ≠ "") :
    srtSplit (r0 :: t) = ((r0 :: t).takeWhile (fun s => s != ""),
      ((r0 :: t).dropWhile (fun s => s != "")).drop 1) := by
  have hred : srtSplit (r0 :: t) = if r0 = "" then
      (match t with
       | [] => ([""], [])
       | t0 :: ts =>
         ("" :: t0 :: ts.takeWhile (fun s => s != ""),
           (ts.dropWhile (fun s => s != "")).drop 1))
    else ((r0 :: t).takeWhile (fun s => s != ""),
      ((r0 :: t).dropWhile (fun s => s != "")).drop 1) := rfl
  rw [hred, if_neg h]

/-- Parsing the render of well-formed cues yields exactly one entry per cue,
in order; stated over `parseSrtAux` with any sufficient fuel, for the
induction. -/
theorem parseSrtAux_renderSrt (fuel : Nat) : ∀ (cues : List SrtCue),
    (∀ c ∈ cues, c.wf) → (renderSrt cues).length ≤ fuel →
    parseSrtAux fuel (renderSrt cues) =
      cues.map (fun c => CaptionEntry.mk (ts2sec c.h c.m c.s) (srtBody c.body)) := by
  induction fuel with
  | zero =>
    intro cues hwf hlen
    cases cues with
    | nil => rfl
    | cons c rest =>
      exfalso
      simp [renderSrt] at hlen
  | succ f ih =>
    intro cues hwf hlen
    cases cues with
    | nil => rfl
    | cons c rest =>
      obtain ⟨hidx, hh, hm, hs, hms, hbne, hball⟩ := hwf c (List.mem_cons_self _ _)
      have hpbody : ∀ y ∈ c.body, (fun s => s != "") y = true := by
        intro y hy
        simp [ne_empty_of_pyStrip y (hball y hy)]
      obtain ⟨b0, bs, hb⟩ : ∃ b0 bs, c.body = b0 :: bs := by
        cases hbody : c.body with
        | nil => exact absurd hbody hbne
        | cons x xs => exact ⟨x, xs, rfl⟩
      have hb0 : b0 ≠ "" :=
        ne_empty_of_pyStrip b0 (hball b0 (by rw [hb]; exact List.mem_cons_self _ _))
      have hsplit : srtSplit (c.body ++ [""] ++ renderSrt rest) = (c.body, renderSrt rest) := by
        have hassoc : c.body ++ [""] ++ renderSrt rest = c.body ++ "" :: renderSrt rest := by
          rw [List.append_assoc]
          rfl
        rw [hassoc, hb, List.cons_append]
        rw [srtSplit_cons_ne b0 (bs ++ "" :: renderSrt rest) hb0]
        rw [← List.cons_append]
        rw [takeWhile_append_stop _ (b0 :: bs) "" (renderSrt rest)
          (by rw [← hb]; exact hpbody) (by decide)]
        rw [dropWhile_append_stop _ (b0 :: bs) "" (renderSrt rest)
          (by rw [← hb]; exact hpbody) (by decide)]
        rfl
      have hlen2 : (renderSrt rest).length ≤ f := by
        have hcount : (renderSrt (c :: rest)).length =
            c.body.length + (renderSrt rest).length + 3 := by
          show (c.index :: srtTimingLine c :: (c.body ++ [""] ++ renderSrt rest)).length = _
          simp [List.length_append]
          omega
        rw [hcount] at hlen
        omega
      have htxt : srtBody c.body ≠ "" := srtBody_ne_empty c.body hbne hball
      show parseSrtAux (f + 1) (c.index :: srtTimingLine c :: (c.body ++ [""] ++ renderSrt rest)) = _
      simp only [parseSrtAux, hidx, if_true]
      rw [List.dropWhile_cons_of_neg (by simp [wsOnly_srtTimingLine c hh])]
      simp only [srtStart_srtTimingLine c hh hm hs hms, hsplit]
      rw [ih rest (fun c2 hc2 => hwf c2 (List.mem_cons_of_mem _ hc2)) hlen2]
      simp only [bne_iff_ne, ne_eq, htxt, not_false_eq_true, if_true, List.map_cons]
      rfl

/-- C3: for every SRT document of `N` well-formed cues (digits index line,
`HH:MM:SS,mmm --> ...` timing line, non-blank body lines, blocks separated by
a blank line), `parse_srt` returns exactly `N` entries, one per cue in the
same relative order, each with start `3600*H + 60*M + S` of the cue's start
timestamp (milliseconds truncated) and the cue's stripped space-joined body
text. -/
theorem C3_parse_srt_wellformed (cues : List SrtCue) (hwf : ∀ c ∈ cues, c.wf) :
    parse_srt (renderSrt cues) =
      cues.map (fun c => CaptionEntry.mk (ts2sec c.h c.m c.s) (srtBody c.body)) ∧
    (parse_srt (renderSrt cues)).length = cues.length ∧
    (parse_srt (renderSrt cues)).map CaptionEntry.start =
      cues.map (fun c => 3600 * c.h + 60 * c.m + c.s) := by
  have hmain := parseSrtAux_renderSrt (renderSrt cues).length cues hwf (Nat.le_refl _)
  refine ⟨hmain, ?_, ?_⟩
  · rw [show parse_srt (renderSrt cues) =
        parseSrtAux (renderSrt cues).length (renderSrt cues) from rfl, hmain, List.length_map]
  · rw [show parse_srt (renderSrt cues) =
        parseSrtAux (renderSrt cues).length (renderSrt cues) from rfl, hmain, List.map_map]
    apply List.map_congr_left
    intro c hc
    show ts2sec c.h c.m c.s = 3600 * c.h + 60 * c.m + c.s
    unfold ts2sec
    omega

/-- C3 witness: the theorem evaluated at a two-cue document. -/
theorem C3_parse_srt_wellformed_witness :
    parse_srt (renderSrt
      [SrtCue.mk "1" 0 0 1 500 "00:00:03,000" ["Hello", "world"],
       SrtCue.mk "2" 1 2 3 999 "01:02:04,000" ["Bye"]]) =
      [CaptionEntry.mk 1 "Hello world", CaptionEntry.mk 3723 "Bye"] := by
  have h := C3_parse_srt_wellformed
    [SrtCue.mk "1" 0 0 1 500 "00:00:03,000" ["Hello", "world"],
     SrtCue.mk "2" 1 2 3 999 "01:02:04,000" ["Bye"]]
    (by intro c hc; fin_cases hc <;> exact ⟨by decide, by decide, by decide, by decide,
      by decide, by decide, by decide⟩)
  rw [h.1]
  decide

